import Mathlib

set_option maxHeartbeats 1000000
set_option maxRecDepth 8000

/-!
Verification development for the `mo-commit` command-line tool
(`src/bin/cli.js`).  The program is a single sequential flow:
read configuration, query the version-control tool for staged paths and
diff, read the staged files, build a prompt, call the generation service,
present the proposed message, ask for confirmation and, if confirmed,
invoke the commit.

The embedding is shallow: every external collaborator (the `git`
executions, the file system reads, the generation service, the
interactive answers) is a field of an `Env` record, and a run is a pure
function from `Env` to a trace of observable actions plus an optional
uncaught error (an unhandled promise rejection or thrown exception in
the JavaScript original).
-/

namespace MoCommit

/-! JavaScript string primitives used by the source. -/

/-- Model of JavaScript `String.prototype.trim` on the underlying
character list: leading and trailing whitespace removed. -/
def jsTrimList (cs : List Char) : List Char :=
  ((cs.dropWhile Char.isWhitespace).reverse.dropWhile Char.isWhitespace).reverse

/-- JS `s.trim()`. -/
def jsTrim (s : String) : String :=
  String.mk (jsTrimList s.data)

/-- Model of JavaScript `String.prototype.split` with a one-character
separator, on the underlying character list.  JS `"".split(sep)` yields
`[""]`, so the result is never empty. -/
def splitCharAux (sep : Char) : List Char → List (List Char)
  | [] => [[]]
  | c :: cs =>
    if c = sep then [] :: splitCharAux sep cs
    else
      match splitCharAux sep cs with
      | [] => [[c]]
      | l :: ls => (c :: l) :: ls

/-- JS `s.split(sep)` for a one-character separator. -/
def jsSplit (sep : Char) (s : String) : List String :=
  (splitCharAux sep s.data).map (fun l => String.mk l)

/-! Data model: commit-type entries and the persisted configuration. -/

instance {ε α : Type _} [DecidableEq ε] [DecidableEq α] : DecidableEq (Except ε α) :=
  fun x y =>
    match x, y with
    | Except.error a, Except.error b => decidable_of_iff (a = b) (by simp)
    | Except.ok a, Except.ok b => decidable_of_iff (a = b) (by simp)
    | Except.error _, Except.ok _ => isFalse (by simp)
    | Except.ok _, Except.error _ => isFalse (by simp)

/-- One commit-type entry as stored in the configuration file.  Entries
coming from the default checkbox carry their `checked` flag; custom
entries entered at setup have no such field, modelled as `none`. -/
structure ConfigEntry where
  name : String
  description : String
  checked : Option Bool
deriving DecidableEq

/-- The persisted configuration record (`~/.mo-commit-config.json`):
provider name, API token and the chosen commit types. -/
structure Config where
  aiProvider : String
  apiToken : String
  commitTypes : List ConfigEntry
deriving DecidableEq

/-- The built-in default commit types offered by the setup checkbox
(`defaultCommitTypes` in `cli.js`). -/
def defaultCommitTypes : List ConfigEntry :=
  [⟨"feat", "A new feature", some true⟩,
   ⟨"fix", "A bug fix", some true⟩,
   ⟨"docs", "Documentation only changes", some false⟩,
   ⟨"style", "Changes that do not affect the meaning of the code", some false⟩,
   ⟨"refactor", "A code change that neither fixes a bug nor adds a feature", some false⟩,
   ⟨"perf", "A code change that improves performance", some false⟩,
   ⟨"test", "Adding missing tests or correcting existing tests", some false⟩,
   ⟨"chore", "Changes to the build process or auxiliary tools", some true⟩]

/-- Path of the configuration file: `path.join(os.homedir(), '.mo-commit-config.json')`. -/
def getGlobalConfigPath (home : String) : String :=
  home ++ "/.mo-commit-config.json"

/-! Setup: parsing the free-form custom commit-type input.  The source
(`cli.js` lines 80–83) maps each comma-separated piece to
`type.split(':').map(s => s.trim())`, destructures the first two parts
as `name` and `description`, and filters on JS truthiness of both. -/

/-- One piece of the custom-type input after the `map` step: the first
colon-separated segment (always present) and the second, if any
(`undefined` in JS when the piece has no colon). -/
def customPairOf (piece : String) : String × Option String :=
  let parts := (jsSplit ':' piece).map jsTrim
  (parts.headD "", parts[1]?)

/-- JS truthiness of the mapped pair: `type.name && type.description`.
The name must be nonempty and the description present and nonempty. -/
def customPairKept (p : String × Option String) : Bool :=
  p.1 ≠ "" && (p.2.getD "") ≠ ""

/-- The custom commit-type parser from `setup` in `cli.js`:
`input.split(',').map(...).filter(...)`. -/
def parseCustomCommitTypes (input : String) : List (String × Option String) :=
  ((jsSplit ',' input).map customPairOf).filter customPairKept

/-- A kept pair viewed as a configuration entry (its description is a
plain string after the truthiness filter; it has no `checked` field). -/
def customEntryOf (p : String × Option String) : ConfigEntry :=
  ⟨p.1, p.2.getD "", none⟩

/-- The answers collected interactively by `setup` (the prompt module is
an external collaborator; validation of the token and of the checkbox
selection happens inside it). -/
structure SetupAnswers where
  aiProvider : String
  apiToken : String
  commitTypes : List ConfigEntry
  customCommitTypes : String

/-! Observable actions and run outcomes. -/

/-- One observable action of a run: console output, a configuration
write, a staged-file read, a generation-service call, the confirmation
question, or the commit invocation. -/
inductive Action where
  | print (s : String)
  | warn (s : String)
  | saveConfig (c : Config)
  | fileRead (path : String)
  | generate (promptStr : String)
  | askConfirm
  | commit (message : String) (sign : Bool)
deriving DecidableEq

/-- An error that escapes the flow uncaught (in the JavaScript original,
an unhandled promise rejection or a thrown exception: nothing in
`cli.js` catches these). -/
inductive RunError where
  | configCorrupt (e : String)
  | vcsQuery (e : String)
  | fileRead (path : String)
  | generation (e : String)
  | commit (e : String)
deriving DecidableEq

/-- The result of a run: the trace of observable actions performed, and
`none` when the run completed normally or `some e` when it crashed with
an uncaught error after performing the trace. -/
structure Run where
  trace : List Action
  outcome : Option RunError
deriving DecidableEq

/-- Outcome of one `child_process.exec` invocation as the callback sees
it: the optional error, the captured standard output and the captured
diagnostic output. -/
structure ExecResult where
  error : Option String
  stdout : String
  stderr : String
deriving DecidableEq

/-- The environment of one run: flag values, the configuration-file
state, the two `git` query results, the file-system reads, the
generation service, the interactive confirmation answer and the
`git commit` result.  `configFile` is `none` when the file is absent
(`fs.access` throws), `some (.error e)` when it exists but `JSON.parse`
throws, and `some (.ok c)` when it parses to configuration `c`. -/
structure Env where
  setupFlag : Bool
  signFlag : Bool
  homedir : String
  answers : SetupAnswers
  configFile : Option (Except String Config)
  stagedExec : ExecResult
  diffExec : ExecResult
  readFile : String → Option String
  gen : String → String → Except String String
  confirmAnswer : Bool
  commitExec : ExecResult

/-! The components of the flow, translated from `cli.js`. -/

/-- The `setup` command (`cli.js` lines 44–100): collects the answers,
appends the parsed custom types to the selected defaults, and saves the
assembled configuration, printing the destination path. -/
def setup (home : String) (a : SetupAnswers) : Run :=
  let customs := (parseCustomCommitTypes a.customCommitTypes).map customEntryOf
  let config : Config := ⟨a.aiProvider, a.apiToken, a.commitTypes ++ customs⟩
  ⟨[Action.print "Running setup...",
    Action.saveConfig config,
    Action.print ("Configuration saved in " ++ getGlobalConfigPath home)], none⟩

/-- `getStagedFilesAndDiff` (`cli.js` lines 165–192): runs
`git diff --cached --name-only` then `git diff --cached`; rejects on an
error or on any nonempty diagnostic output of either query; on success
the staged paths are `stdout.trim().split('\n')`. -/
def getStagedFilesAndDiff (r1 r2 : ExecResult) : Except String (List String × String) :=
  match r1.error with
  | some e => Except.error ("Error getting staged files: " ++ e)
  | none =>
    if r1.stderr ≠ "" then Except.error ("Error getting staged files: " ++ r1.stderr)
    else
      match r2.error with
      | some e => Except.error ("Error getting diff: " ++ e)
      | none =>
        if r2.stderr ≠ "" then Except.error ("Error getting diff: " ++ r2.stderr)
        else Except.ok (jsSplit '\n' (jsTrim r1.stdout), r2.stdout)

/-- `getFilesContent` (`cli.js` lines 194–202): for each staged path in
order, read the file and append the labeled block
`"File: <path>\n<content>\n\n"`.  A failed read throws, abandoning the
loop; the returned action list records the reads attempted. -/
def getFilesContent (read : String → Option String) : List String → List Action × Except String String
  | [] => ([], Except.ok "")
  | f :: fs =>
    match read f with
    | none => ([Action.fileRead f], Except.error f)
    | some c =>
      let rest := getFilesContent read fs
      (Action.fileRead f :: rest.1,
       match rest.2 with
       | Except.ok s => Except.ok ("File: " ++ f ++ "\n" ++ c ++ "\n\n" ++ s)
       | Except.error e => Except.error e)

/-- The prompt text assembled inside `generateCommitMessage`
(`cli.js` lines 215–241), with the configured commit types rendered as
`- name: description` lines. -/
def promptText (filesContent diff : String) (commitTypes : List ConfigEntry) : String :=
  "\n                Analyze the following Git diff and file contents to generate a concise, informative commit message following these best practices:\n\n                1. Start with a commit type prefix followed by a colon and space. Use one of these types:\n                    "
  ++ String.intercalate "\n                    "
       (commitTypes.map (fun t => "- " ++ t.name ++ ": " ++ t.description))
  ++ "\n\n                2. After the type, use the imperative mood (e.g., \x27add feature\x27 not \x27added feature\x27)\n                3. Keep the first line (subject) under 50 characters, including the type\n                4. The whole commit message and title must be on lower case always\n                5. Do not end the subject line with a period\n                6. Separate subject from body with a blank line\n                7. Wrap the body at 72 characters\n                8. Use the body to explain what and why, not how\n\n                If multiple files or significant changes are involved, use a multi-line commit message with a brief subject line followed by a more detailed explanation in the body.\n\n                <filescontent>\n                "
  ++ filesContent
  ++ "\n                </filescontent>\n\n\n                <diff>\n                "
  ++ diff
  ++ "\n                </diff>\n\n                Generate the commit message now using the provided information and return only the commit message without explanations.:\n                "

/-- `generateCommitMessage` (`cli.js` lines 204–247): builds the prompt
and sends it to the generation service with the stored credential,
returning the first text segment of the response.  The service itself
is the `gen` collaborator. -/
def generateCommitMessage (gen : String → String → Except String String)
    (apiToken filesContent diff : String) (commitTypes : List ConfigEntry) :
    List Action × Except String String :=
  let p := promptText filesContent diff commitTypes
  ([Action.generate p], gen apiToken p)

/-- Subject of the generated message as split for display
(`const [subject, ...body] = commitMessage.split('\n')`). -/
def messageSubject (m : String) : String :=
  (jsSplit '\n' m).headD ""

/-- Remaining lines of the generated message as split for display. -/
def messageBody (m : String) : List String :=
  (jsSplit '\n' m).tail

/-- `makeCommit` (`cli.js` lines 249–263): runs
`git commit [-S ]-m "<message>"`.  An exec error rejects; nonempty
diagnostic output without an error is only logged as a warning and the
call still resolves with the captured standard output. -/
def makeCommit (res : ExecResult) (message : String) (sign : Bool) :
    List Action × Except String String :=
  match res.error with
  | some e => ([Action.commit message sign], Except.error ("Error making commit: " ++ e))
  | none =>
    (Action.commit message sign ::
       (if res.stderr ≠ "" then [Action.warn ("Warning while making commit: " ++ res.stderr)] else []),
     Except.ok res.stdout)

/-- The display block printed between generation and confirmation
(`cli.js` lines 135–146). -/
def displayActions (commitMessage : String) : List Action :=
  let subject := messageSubject commitMessage
  let body := messageBody commitMessage
  [Action.print "\n=== Generated Commit Message ===",
   Action.print "----------------------------------",
   Action.print subject]
  ++ (if body.length > 0 then
        [Action.print "----------------------------------",
         Action.print (String.intercalate "\n" body)]
      else [])
  ++ [Action.print "----------------------------------\n"]

/-- `defaultCommand` (`cli.js` lines 102–163): the main commit flow.
Only the missing-configuration case is caught; every other failure is
an uncaught rejection, modelled as a `some` outcome. -/
def defaultCommand (env : Env) : Run :=
  let t0 : List Action := [Action.print "Executing commit..."]
  match env.configFile with
  | none =>
    ⟨t0 ++ [Action.print "Configuration not found. Please run \"commit --setup\" first."], none⟩
  | some (Except.error e) => ⟨t0, some (RunError.configCorrupt e)⟩
  | some (Except.ok config) =>
    if config.aiProvider = "Anthropic" then
      match getStagedFilesAndDiff env.stagedExec env.diffExec with
      | Except.error e => ⟨t0, some (RunError.vcsQuery e)⟩
      | Except.ok (stagedFiles, diff) =>
        if stagedFiles.length = 0 ∨ stagedFiles.head? = some "" then
          ⟨t0 ++ [Action.print "No files in staging. Add files before committing."], none⟩
        else
          match getFilesContent env.readFile stagedFiles with
          | (reads, Except.error f) => ⟨t0 ++ reads, some (RunError.fileRead f)⟩
          | (reads, Except.ok filesContent) =>
            let genStep := generateCommitMessage env.gen config.apiToken filesContent diff config.commitTypes
            let t1 := t0 ++ reads ++ genStep.1
            match genStep.2 with
            | Except.error e => ⟨t1, some (RunError.generation e)⟩
            | Except.ok commitMessage =>
              let t2 := t1 ++ displayActions commitMessage ++ [Action.askConfirm]
              if env.confirmAnswer then
                let commitStep := makeCommit env.commitExec commitMessage env.signFlag
                match commitStep.2 with
                | Except.error e => ⟨t2 ++ commitStep.1, some (RunError.commit e)⟩
                | Except.ok _ =>
                  ⟨t2 ++ commitStep.1 ++ [Action.print "Commit successfully made."], none⟩
              else ⟨t2 ++ [Action.print "Commit cancelled."], none⟩
    else ⟨t0 ++ [Action.print "This command only works with Anthropic for now."], none⟩

/-- The entry dispatch (`cli.js` lines 265–269): `--setup` runs the
setup wizard, otherwise the commit flow runs. -/
def cliMain (env : Env) : Run :=
  if env.setupFlag then setup env.homedir env.answers else defaultCommand env

/-! The configuration store (`cli.js` lines 93–97 and 114): `save` is
`fs.writeFile(configPath, JSON.stringify(answers, null, 2))` and `load`
is `JSON.parse(await fs.readFile(configPath, 'utf8'))`.  The JSON text
codec is the JavaScript builtin pair `JSON.stringify` / `JSON.parse`,
embedded here over the value shapes the configuration uses (strings,
booleans, arrays, objects — it has no numbers or nulls to serialize,
though `null` is kept for completeness). -/

mutual

/-- JSON values of the shapes the configuration record uses.  Item and
field sequences are their own inductive types (rather than `List`) so
that every function below is structurally recursive and evaluates in
the kernel. -/
inductive Json where
  | null
  | bool (b : Bool)
  | str (s : String)
  | arr (items : JsonList)
  | obj (fields : JsonFields)

/-- A sequence of JSON array items. -/
inductive JsonList where
  | nil
  | cons (j : Json) (tl : JsonList)

/-- A sequence of JSON object fields. -/
inductive JsonFields where
  | nil
  | cons (key : String) (v : Json) (tl : JsonFields)

end

/-- Lowercase hexadecimal digit, as `JSON.stringify` emits in `\u`
escapes. -/
def hexDigitChar (n : Nat) : Char :=
  if n < 10 then Char.ofNat (48 + n) else Char.ofNat (87 + n)

/-- The escaping `JSON.stringify` applies to one character of a string:
quote and backslash escaped, the five named control escapes, `\u00xx`
for the remaining control characters, everything else verbatim. -/
def escapeChar (c : Char) : List Char :=
  if c = '"' then ['\\', '"']
  else if c = '\\' then ['\\', '\\']
  else if c = '\x08' then ['\\', 'b']
  else if c = '\x09' then ['\\', 't']
  else if c = '\x0a' then ['\\', 'n']
  else if c = '\x0c' then ['\\', 'f']
  else if c = '\x0d' then ['\\', 'r']
  else if c.toNat < 32 then
    ['\\', 'u', '0', '0', hexDigitChar (c.toNat / 16), hexDigitChar (c.toNat % 16)]
  else [c]

/-- Escape every character of a string body. -/
def escapeString : List Char → List Char
  | [] => []
  | c :: rest => escapeChar c ++ escapeString rest

/-- A JSON string literal: quoted escaped body. -/
def printString (s : String) : List Char :=
  '"' :: escapeString s.data ++ ['"']

/-- The two-space-per-level indentation `JSON.stringify(v, null, 2)`
uses. -/
def jsonIndent (k : Nat) : List Char :=
  List.replicate (2 * k) ' '

mutual

/-- Pretty-printing of a JSON value at nesting level `k`, as
`JSON.stringify(value, null, 2)` renders it. -/
def printJson : Nat → Json → List Char
  | _, Json.null => ['n', 'u', 'l', 'l']
  | _, Json.bool true => ['t', 'r', 'u', 'e']
  | _, Json.bool false => ['f', 'a', 'l', 's', 'e']
  | _, Json.str s => printString s
  | _, Json.arr JsonList.nil => ['[', ']']
  | k, Json.arr (JsonList.cons j js) =>
    '[' :: '\n' :: printItems (k + 1) (JsonList.cons j js) ++ '\n' :: jsonIndent k ++ [']']
  | _, Json.obj JsonFields.nil => ['\x7b', '\x7d']
  | k, Json.obj (JsonFields.cons key v fs) =>
    '\x7b' :: '\n' :: printFields (k + 1) (JsonFields.cons key v fs) ++
      '\n' :: jsonIndent k ++ ['\x7d']

/-- Array items, one per line at level `k`, comma-separated. -/
def printItems : Nat → JsonList → List Char
  | _, JsonList.nil => []
  | k, JsonList.cons j JsonList.nil => jsonIndent k ++ printJson k j
  | k, JsonList.cons j (JsonList.cons j2 js) =>
    jsonIndent k ++ printJson k j ++ ',' :: '\n' :: printItems k (JsonList.cons j2 js)

/-- Object fields, one per line at level `k`, comma-separated. -/
def printFields : Nat → JsonFields → List Char
  | _, JsonFields.nil => []
  | k, JsonFields.cons key v JsonFields.nil =>
    jsonIndent k ++ printString key ++ ':' :: ' ' :: printJson k v
  | k, JsonFields.cons key v (JsonFields.cons key2 v2 fs) =>
    jsonIndent k ++ printString key ++ ':' :: ' ' :: printJson k v ++
      ',' :: '\n' :: printFields k (JsonFields.cons key2 v2 fs)

end

/-- JSON whitespace. -/
def isWsChar (c : Char) : Bool :=
  c = ' ' || c = '\n' || c = '\t' || c = '\r'

/-- Drop leading JSON whitespace. -/
def skipWs : List Char → List Char
  | [] => []
  | c :: cs => if isWsChar c then skipWs cs else c :: cs

/-- Value of one hexadecimal digit, both letter cases accepted as
`JSON.parse` does. -/
def hexVal (c : Char) : Option Nat :=
  if '0' ≤ c ∧ c ≤ '9' then some (c.toNat - 48)
  else if 'a' ≤ c ∧ c ≤ 'f' then some (c.toNat - 87)
  else if 'A' ≤ c ∧ c ≤ 'F' then some (c.toNat - 55)
  else none

/-- The named single-character escapes of JSON string literals. -/
def namedEscape (e : Char) : Option Char :=
  if e = '"' then some '"'
  else if e = '\\' then some '\\'
  else if e = '/' then some '/'
  else if e = 'b' then some '\x08'
  else if e = 'f' then some '\x0c'
  else if e = 'n' then some '\x0a'
  else if e = 'r' then some '\x0d'
  else if e = 't' then some '\x09'
  else none

/-- Parse the body of a JSON string literal after its opening quote,
returning the decoded characters and the input after the closing
quote.  Raw control characters are rejected, as `JSON.parse` does. -/
def parseStringBody : List Char → Option (List Char × List Char)
  | [] => none
  | c :: rest =>
    if c = '"' then some ([], rest)
    else if c = '\\' then
      match rest with
      | [] => none
      | e :: rest2 =>
        if e = 'u' then
          match rest2 with
          | h1 :: h2 :: h3 :: h4 :: rest3 =>
            match hexVal h1, hexVal h2, hexVal h3, hexVal h4 with
            | some a, some b, some c4, some d =>
              let n := ((a * 16 + b) * 16 + c4) * 16 + d
              if h : n.isValidChar then
                match parseStringBody rest3 with
                | some (cs, r) => some (Char.ofNatAux n h :: cs, r)
                | none => none
              else none
            | _, _, _, _ => none
          | _ => none
        else
          match namedEscape e with
          | some d =>
            match parseStringBody rest2 with
            | some (cs, r) => some (d :: cs, r)
            | none => none
          | none => none
    else if c.toNat < 32 then none
    else
      match parseStringBody rest with
      | some (cs, r) => some (c :: cs, r)
      | none => none

mutual

/-- Fueled recursive-descent parser for one JSON value (of the shapes
the configuration uses), mirroring `JSON.parse`.  The fuel only bounds
nesting-recursion depth; parsing consumes the input lists
structurally. -/
def parseValue : Nat → List Char → Option (Json × List Char)
  | 0, _ => none
  | fuel + 1, cs =>
    match skipWs cs with
    | 'n' :: 'u' :: 'l' :: 'l' :: rest => some (Json.null, rest)
    | 't' :: 'r' :: 'u' :: 'e' :: rest => some (Json.bool true, rest)
    | 'f' :: 'a' :: 'l' :: 's' :: 'e' :: rest => some (Json.bool false, rest)
    | '"' :: rest =>
      match parseStringBody rest with
      | some (cs2, r) => some (Json.str (String.mk cs2), r)
      | none => none
    | '[' :: rest =>
      match skipWs rest with
      | [] => none
      | c :: r2 =>
        if c = ']' then some (Json.arr JsonList.nil, r2)
        else
          match parseItems fuel (c :: r2) with
          | some (js, r3) => some (Json.arr js, r3)
          | none => none
    | '\x7b' :: rest =>
      match skipWs rest with
      | [] => none
      | c :: r2 =>
        if c = '\x7d' then some (Json.obj JsonFields.nil, r2)
        else
          match parseFields fuel (c :: r2) with
          | some (fs, r3) => some (Json.obj fs, r3)
          | none => none
    | _ => none

/-- Parse one or more comma-separated array items up to the closing
bracket. -/
def parseItems : Nat → List Char → Option (JsonList × List Char)
  | 0, _ => none
  | fuel + 1, cs =>
    match parseValue fuel cs with
    | none => none
    | some (j, r1) =>
      match skipWs r1 with
      | [] => none
      | c :: r2 =>
        if c = ',' then
          match parseItems fuel r2 with
          | some (js, r3) => some (JsonList.cons j js, r3)
          | none => none
        else if c = ']' then some (JsonList.cons j JsonList.nil, r2)
        else none

/-- Parse one or more comma-separated object fields up to the closing
brace. -/
def parseFields : Nat → List Char → Option (JsonFields × List Char)
  | 0, _ => none
  | fuel + 1, cs =>
    match skipWs cs with
    | [] => none
    | c :: r0 =>
      if c = '"' then
        match parseStringBody r0 with
        | none => none
        | some (key, r1) =>
          match skipWs r1 with
          | [] => none
          | c1 :: r2 =>
            if c1 = ':' then
              match parseValue fuel r2 with
              | none => none
              | some (v, r3) =>
                match skipWs r3 with
                | [] => none
                | c2 :: r4 =>
                  if c2 = ',' then
                    match parseFields fuel r4 with
                    | none => none
                    | some (fs, r5) => some (JsonFields.cons (String.mk key) v fs, r5)
                  else if c2 = '\x7d' then
                    some (JsonFields.cons (String.mk key) v JsonFields.nil, r4)
                  else none
            else none
      else none

end

/-- Parse a whole JSON document: one value with only whitespace after
it, as `JSON.parse` requires. -/
def parseJsonText (s : String) : Option Json :=
  match parseValue (s.data.length + 1) s.data with
  | some (j, rest) => if skipWs rest = [] then some j else none
  | none => none

mutual

/-- Node-count measure of a JSON value, used to discharge the parser
fuel. -/
def sizeJ : Json → Nat
  | Json.null => 1
  | Json.bool _ => 1
  | Json.str _ => 1
  | Json.arr items => 1 + sizeItemsJ items
  | Json.obj fields => 1 + sizeFieldsJ fields

/-- Node-count measure of an item sequence. -/
def sizeItemsJ : JsonList → Nat
  | JsonList.nil => 1
  | JsonList.cons j js => 1 + sizeJ j + sizeItemsJ js

/-- Node-count measure of a field sequence. -/
def sizeFieldsJ : JsonFields → Nat
  | JsonFields.nil => 1
  | JsonFields.cons _ v fs => 1 + sizeJ v + sizeFieldsJ fs

end

/-- Item sequence built from a list of values. -/
def jsonListOf : List Json → JsonList
  | [] => JsonList.nil
  | j :: js => JsonList.cons j (jsonListOf js)

/-- One configuration commit-type entry as the JSON object
`JSON.stringify` writes for it: default entries carry their `checked`
flag, custom entries do not. -/
def entryToJson (e : ConfigEntry) : Json :=
  Json.obj (JsonFields.cons "name" (Json.str e.name)
    (JsonFields.cons "description" (Json.str e.description)
      (match e.checked with
       | some b => JsonFields.cons "checked" (Json.bool b) JsonFields.nil
       | none => JsonFields.nil)))

/-- The configuration record as the JSON object `JSON.stringify` writes
(the `answers` object of `setup`: provider, token, commit types, in
insertion order). -/
def configToJson (c : Config) : Json :=
  Json.obj (JsonFields.cons "aiProvider" (Json.str c.aiProvider)
    (JsonFields.cons "apiToken" (Json.str c.apiToken)
      (JsonFields.cons "commitTypes" (Json.arr (jsonListOf (c.commitTypes.map entryToJson)))
        JsonFields.nil)))

/-- Read one commit-type entry back from its JSON object. -/
def entryFromJson : Json → Option ConfigEntry
  | Json.obj (JsonFields.cons "name" (Json.str n)
      (JsonFields.cons "description" (Json.str d) JsonFields.nil)) =>
    some ⟨n, d, none⟩
  | Json.obj (JsonFields.cons "name" (Json.str n)
      (JsonFields.cons "description" (Json.str d)
        (JsonFields.cons "checked" (Json.bool b) JsonFields.nil))) =>
    some ⟨n, d, some b⟩
  | _ => none

/-- Read a commit-type entry list back. -/
def entriesFromJson : JsonList → Option (List ConfigEntry)
  | JsonList.nil => some []
  | JsonList.cons j js =>
    match entryFromJson j with
    | none => none
    | some e =>
      match entriesFromJson js with
      | none => none
      | some es => some (e :: es)

/-- Read the configuration record back from its JSON object. -/
def configFromJson : Json → Option Config
  | Json.obj (JsonFields.cons "aiProvider" (Json.str p)
      (JsonFields.cons "apiToken" (Json.str t)
        (JsonFields.cons "commitTypes" (Json.arr items) JsonFields.nil))) =>
    match entriesFromJson items with
    | some entries => some ⟨p, t, entries⟩
    | none => none
  | _ => none

/-- `ConfigStore.save`: the file text written for a configuration,
`JSON.stringify(answers, null, 2)`. -/
def ConfigStore.save (c : Config) : String :=
  String.mk (printJson 0 (configToJson c))

/-- `ConfigStore.load`: parse the stored file text back into the
configuration record, `JSON.parse` plus the record's shape. -/
def ConfigStore.load (s : String) : Option Config :=
  match parseJsonText s with
  | some j => configFromJson j
  | none => none

/-! Spec-side definitions, written from the specification's words, for
comparison with the source-derived definitions. -/

/-- Spec-worded split of a custom pair on the FIRST colon: the name is
the text before the first colon, the description everything after it
(later colons included).  `none` when the pair has no colon. -/
def specSplitFirstColon (s : String) : Option (String × String) :=
  match jsSplit ':' s with
  | [] => none
  | [_] => none
  | n :: rest => some (n, String.intercalate ":" rest)

/-- The custom-type parser as claim C3 words it: each pair trimmed and
split on the first colon into name and description; pairs missing a
non-empty name or description dropped. -/
def specParseCustomTypes (input : String) : List ConfigEntry :=
  (jsSplit ',' input).filterMap (fun piece =>
    match specSplitFirstColon (jsTrim piece) with
    | none => none
    | some (n, d) => if n ≠ "" ∧ d ≠ "" then some ⟨n, d, none⟩ else none)

/-- The custom-type parser as the code actually behaves (the amended
claim): each pair is split on EVERY colon, each segment trimmed, and the
first two segments become name and description — text after a second
colon is discarded; pairs lacking a nonempty name or a nonempty
description are dropped. -/
def amendedParseCustomTypes (input : String) : List ConfigEntry :=
  (jsSplit ',' input).filterMap (fun piece =>
    match (jsSplit ':' piece).map jsTrim with
    | [] => none
    | [_] => none
    | n :: d :: _ => if n ≠ "" ∧ d ≠ "" then some ⟨n, d, none⟩ else none)

/-! Concrete environments used to witness the theorems on sample runs. -/

/-- Sample setup answers. -/
def sampleAnswers : SetupAnswers :=
  ⟨"Anthropic", "tok", [⟨"feat", "A new feature", some true⟩, ⟨"fix", "A bug fix", some true⟩],
   "build:ci tweaks"⟩

/-- A fully successful run: configuration present and valid, one staged
file, readable content, a generation result, user approval, clean
commit. -/
def envHappy : Env where
  setupFlag := false
  signFlag := false
  homedir := "/home/u"
  answers := sampleAnswers
  configFile := some (Except.ok ⟨"Anthropic", "tok", [⟨"feat", "A new feature", some true⟩]⟩)
  stagedExec := ⟨none, "a.js\n", ""⟩
  diffExec := ⟨none, "+console.log(1)", ""⟩
  readFile := fun _ => some "console.log(1)"
  gen := fun _ _ => Except.ok "feat: add logging\n\nadds a debug log line"
  confirmAnswer := true
  commitExec := ⟨none, "", ""⟩

/-- The same run, but the user declines the proposed message. -/
def envDecline : Env :=
  { envHappy with confirmAnswer := false }

/-- The same run, but the configuration file holds unparseable text. -/
def envCorrupt : Env :=
  { envHappy with configFile := some (Except.error "Unexpected token") }

/-- The same run, but nothing is staged: the staged-files query prints
nothing, so its trimmed output splits to `[""]`. -/
def envNothing : Env :=
  { envHappy with stagedExec := ⟨none, "", ""⟩ }

/-- The same run, but the commit emits hook diagnostics on stderr. -/
def envCommitNoisy : Env :=
  { envHappy with commitExec := ⟨none, "done", "hook output"⟩ }

/-- The same run, but the configuration file is absent. -/
def envNoConfig : Env :=
  { envHappy with configFile := none }

example : jsSplit '\n' "a\nb" = ["a", "b"] := by decide

example : jsSplit '\n' "" = [""] := by decide

example : parseCustomCommitTypes "build:ci tweaks" = [("build", some "ci tweaks")] := by decide

/-! Helper lemmas. -/

theorem splitCharAux_ne_nil (sep : Char) (cs : List Char) : splitCharAux sep cs ≠ [] := by
  induction cs with
  | nil => simp [splitCharAux]
  | cons c cs ih =>
    simp only [splitCharAux]
    split
    · simp
    · rcases h : splitCharAux sep cs with _ | ⟨l, ls⟩ <;> simp [h]

theorem jsSplit_length_pos (sep : Char) (s : String) : 0 < (jsSplit sep s).length := by
  have h := splitCharAux_ne_nil sep s.data
  simp [jsSplit, List.length_pos]
  exact h

theorem join_cons (s : String) (l : List String) :
    String.join (s :: l) = s ++ String.join l := by
  apply String.ext
  simp [String.join_eq]

theorem getFilesContent_reads (read : String → Option String) (files : List String) :
    ∀ a ∈ (getFilesContent read files).1, ∃ p, a = Action.fileRead p := by
  induction files with
  | nil => simp [getFilesContent]
  | cons f fs ih =>
    rcases h : read f with _ | c
    · simp [getFilesContent, h]
    · intro a ha
      simp only [getFilesContent, h, List.mem_cons] at ha
      rcases ha with rfl | ha
      · exact ⟨f, rfl⟩
      · exact ih a ha

theorem displayActions_prints (m : String) :
    ∀ a ∈ displayActions m, ∃ s, a = Action.print s := by
  intro a ha
  simp only [displayActions, List.mem_append, List.mem_cons, List.not_mem_nil, or_false] at ha
  rcases ha with ((rfl | rfl | rfl) | hb) | rfl
  · exact ⟨_, rfl⟩
  · exact ⟨_, rfl⟩
  · exact ⟨_, rfl⟩
  · split at hb <;> simp at hb
    rcases hb with rfl | rfl
    · exact ⟨_, rfl⟩
    · exact ⟨_, rfl⟩
  · exact ⟨_, rfl⟩

theorem commit_not_mem_reads (read : String → Option String) (files : List String)
    (m : String) (s : Bool) : Action.commit m s ∉ (getFilesContent read files).1 := by
  intro hmem
  obtain ⟨q, hq⟩ := getFilesContent_reads read files _ hmem
  simp at hq

theorem commit_not_mem_display (msg m : String) (s : Bool) :
    Action.commit m s ∉ displayActions msg := by
  intro hmem
  obtain ⟨q, hq⟩ := displayActions_prints msg _ hmem
  simp at hq

theorem commit_mem_spec (env : Env) (m : String) (s : Bool)
    (h : Action.commit m s ∈ (cliMain env).trace) :
    env.setupFlag = false ∧ env.confirmAnswer = true ∧ s = env.signFlag ∧
    ∃ cfg stagedFiles diff reads fc,
      env.configFile = some (Except.ok cfg) ∧
      cfg.aiProvider = "Anthropic" ∧
      getStagedFilesAndDiff env.stagedExec env.diffExec = Except.ok (stagedFiles, diff) ∧
      ¬(stagedFiles.length = 0 ∨ stagedFiles.head? = some "") ∧
      getFilesContent env.readFile stagedFiles = (reads, Except.ok fc) ∧
      env.gen cfg.apiToken (promptText fc diff cfg.commitTypes) = Except.ok m ∧
      ∃ pre post,
        (cliMain env).trace = pre ++ Action.askConfirm :: post ∧
        Action.commit m s ∈ post ∧
        Action.generate (promptText fc diff cfg.commitTypes) ∈ pre := by
  by_cases hset : env.setupFlag = true
  · simp [cliMain, hset, setup] at h
  · have hmain : cliMain env = defaultCommand env := by simp [cliMain, hset]
    rw [hmain] at h ⊢
    rcases hcf : env.configFile with _ | (e | cfg)
    · simp [defaultCommand, hcf] at h
    · simp [defaultCommand, hcf] at h
    · by_cases hp : cfg.aiProvider = "Anthropic"
      · rcases hsd : getStagedFilesAndDiff env.stagedExec env.diffExec with e | ⟨files, diff⟩
        · simp [defaultCommand, hcf, hp, hsd] at h
        · by_cases h0 : files.length = 0 ∨ files.head? = some ""
          · simp only [defaultCommand, hcf, hp, if_true, hsd] at h
            rw [if_pos h0] at h
            simp at h
          · rcases hfc : getFilesContent env.readFile files with ⟨reads, ferr | fc⟩
            · have hr : Action.commit m s ∉ reads := by
                have := commit_not_mem_reads env.readFile files m s
                rw [hfc] at this
                exact this
              simp only [defaultCommand, hcf, hp, if_true, hsd] at h
              rw [if_neg h0] at h
              simp only [hfc, Run.trace] at h
              simp [hr] at h
            · have hr : Action.commit m s ∉ reads := by
                have := commit_not_mem_reads env.readFile files m s
                rw [hfc] at this
                exact this
              simp only [defaultCommand, hcf, hp, if_true, hsd] at h
              rw [if_neg h0] at h
              simp only [hfc, generateCommitMessage] at h
              rcases hg : env.gen cfg.apiToken (promptText fc diff cfg.commitTypes) with ge | msg
              · simp only [hg, Run.trace] at h
                simp [hr] at h
              · simp only [hg] at h
                by_cases hconf : env.confirmAnswer = true
                · rw [if_pos hconf] at h
                  simp only [makeCommit] at h
                  rcases hce : env.commitExec.error with _ | ce
                  · simp only [hce, Run.trace] at h
                    simp [hr, commit_not_mem_display msg m s, List.mem_ite_nil_right] at h
                    obtain ⟨rfl, rfl⟩ := h
                    refine ⟨by simpa using hset, hconf, rfl, cfg, files, diff, reads, fc,
                      rfl, hp, rfl, h0, hfc, hg,
                      Action.print "Executing commit..." ::
                        (reads ++ Action.generate (promptText fc diff cfg.commitTypes) ::
                          displayActions m),
                      Action.commit m env.signFlag ::
                        ((if env.commitExec.stderr ≠ "" then
                            [Action.warn ("Warning while making commit: " ++ env.commitExec.stderr)]
                          else []) ++ [Action.print "Commit successfully made."]),
                      ?_, by simp, by simp⟩
                    simp only [defaultCommand, hcf, hp, if_true, hsd]
                    rw [if_neg h0]
                    simp only [hfc, generateCommitMessage, hg, if_pos hconf, makeCommit, hce]
                    simp [List.append_assoc]
                  · simp only [hce, Run.trace] at h
                    simp [hr, commit_not_mem_display msg m s] at h
                    obtain ⟨rfl, rfl⟩ := h
                    refine ⟨by simpa using hset, hconf, rfl, cfg, files, diff, reads, fc,
                      rfl, hp, rfl, h0, hfc, hg,
                      Action.print "Executing commit..." ::
                        (reads ++ Action.generate (promptText fc diff cfg.commitTypes) ::
                          displayActions m),
                      [Action.commit m env.signFlag],
                      ?_, by simp, by simp⟩
                    simp only [defaultCommand, hcf, hp, if_true, hsd]
                    rw [if_neg h0]
                    simp only [hfc, generateCommitMessage, hg, if_pos hconf, makeCommit, hce]
                    simp [List.append_assoc]
                · rw [if_neg hconf] at h
                  simp only [Run.trace] at h
                  simp [hr, commit_not_mem_display msg m s] at h
      · simp [defaultCommand, hcf, hp] at h

/-! Claim theorems. -/

/-- Claim C10: splitting the trimmed staged-files output on line breaks
always yields at least one entry (the empty string when nothing is
staged), so the length-zero arm of the nothing-staged check is
unreachable and the decision is made solely by the first entry being
the empty string. -/
theorem C10_staged_list_never_empty (stdout : String) :
    0 < (jsSplit '\n' (jsTrim stdout)).length ∧
    (((jsSplit '\n' (jsTrim stdout)).length = 0 ∨
        (jsSplit '\n' (jsTrim stdout)).head? = some "") ↔
      (jsSplit '\n' (jsTrim stdout)).head? = some "") := by
  have h := jsSplit_length_pos '\n' (jsTrim stdout)
  refine ⟨h, ?_, fun h1 => Or.inr h1⟩
  rintro (h0 | h1)
  · omega
  · exact h1

/-- Claim C5: with every staged file readable, the collected content is
exactly the concatenation, in the listed order, of one labeled block
per file — and exactly one read per file, in order. -/
theorem C5_files_content_blocks (read : String → Option String) (files : List String)
    (h : ∀ f ∈ files, (read f).isSome) :
    getFilesContent read files =
      (files.map Action.fileRead,
       Except.ok (String.join (files.map
         (fun f => "File: " ++ f ++ "\n" ++ (read f).getD "" ++ "\n\n")))) := by
  induction files with
  | nil => simp [getFilesContent, String.join]
  | cons f fs ih =>
    have hf : (read f).isSome := h f (by simp)
    rcases hread : read f with _ | c
    · rw [hread] at hf; simp at hf
    · have ih2 := ih (fun g hg => h g (by simp [hg]))
      simp [getFilesContent, hread, ih2, join_cons, String.append_assoc]

/-- Claim C5 witness: two staged files, both readable, collect into the
two labeled blocks in order. -/
theorem C5_files_content_blocks_witness :
    (∀ f ∈ ["a.js", "b.js"],
       ((fun p => if p = "a.js" then some "AAA" else some "BBB") f).isSome) ∧
    getFilesContent (fun p => if p = "a.js" then some "AAA" else some "BBB") ["a.js", "b.js"] =
      ([Action.fileRead "a.js", Action.fileRead "b.js"],
       Except.ok "File: a.js\nAAA\n\nFile: b.js\nBBB\n\n") := by
  refine ⟨by decide, ?_⟩
  have h := C5_files_content_blocks
    (fun p => if p = "a.js" then some "AAA" else some "BBB") ["a.js", "b.js"] (by decide)
  rw [h]
  decide

/-- Claim C6: diagnostic output is fatal for the staged-paths and diff
queries (with or without an exec error), while for the commit
invocation diagnostic output without an error only logs a warning and
the commit still resolves; only an exec error fails the commit. -/
theorem C6_diagnostic_asymmetry (r1 r2 rc : ExecResult) (msg : String) (sign : Bool) :
    ((r1.error.isSome ∨ r1.stderr ≠ "") →
        ∃ e, getStagedFilesAndDiff r1 r2 = Except.error e) ∧
    (r1.error = none → r1.stderr = "" → (r2.error.isSome ∨ r2.stderr ≠ "") →
        ∃ e, getStagedFilesAndDiff r1 r2 = Except.error e) ∧
    (rc.error = none →
        (makeCommit rc msg sign).2 = Except.ok rc.stdout ∧
        (rc.stderr ≠ "" →
          Action.warn ("Warning while making commit: " ++ rc.stderr) ∈ (makeCommit rc msg sign).1)) ∧
    (∀ e, rc.error = some e →
        (makeCommit rc msg sign).2 = Except.error ("Error making commit: " ++ e)) := by
  refine ⟨?_, ?_, ?_, ?_⟩
  · intro h
    rcases h1 : r1.error with _ | e
    · rw [h1] at h
      simp only [Option.isSome_none, Bool.false_eq_true, false_or] at h
      exact ⟨"Error getting staged files: " ++ r1.stderr, by simp [getStagedFilesAndDiff, h1, h]⟩
    · exact ⟨"Error getting staged files: " ++ e, by simp [getStagedFilesAndDiff, h1]⟩
  · intro h1 hs h
    rcases h2 : r2.error with _ | e
    · rw [h2] at h
      simp only [Option.isSome_none, Bool.false_eq_true, false_or] at h
      exact ⟨"Error getting diff: " ++ r2.stderr, by simp [getStagedFilesAndDiff, h1, hs, h2, h]⟩
    · exact ⟨"Error getting diff: " ++ e, by simp [getStagedFilesAndDiff, h1, hs, h2]⟩
  · intro h
    constructor
    · simp [makeCommit, h]
    · intro hw
      simp [makeCommit, h, hw]
  · intro e he
    simp [makeCommit, he]

/-- Claim C6 witness: a clean exec with nonempty stderr fails the
staged-files query, while the same situation on the commit exec only
warns and the commit resolves; an actual commit error rejects. -/
theorem C6_diagnostic_asymmetry_witness :
    (∃ e, getStagedFilesAndDiff ⟨none, "", "warning: x"⟩ ⟨none, "", ""⟩ = Except.error e) ∧
    (makeCommit ⟨none, "out", "hook output"⟩ "m" false).2 = Except.ok "out" ∧
    Action.warn ("Warning while making commit: " ++ "hook output") ∈
      (makeCommit ⟨none, "out", "hook output"⟩ "m" false).1 ∧
    (makeCommit ⟨some "boom", "", ""⟩ "m" false).2 =
      Except.error ("Error making commit: " ++ "boom") := by
  refine ⟨(C6_diagnostic_asymmetry ⟨none, "", "warning: x"⟩ ⟨none, "", ""⟩ ⟨none, "out", "hook output"⟩ "m" false).1
            (Or.inr (by decide)),
          ((C6_diagnostic_asymmetry ⟨none, "", "warning: x"⟩ ⟨none, "", ""⟩ ⟨none, "out", "hook output"⟩ "m" false).2.2.1 rfl).1,
          ((C6_diagnostic_asymmetry ⟨none, "", "warning: x"⟩ ⟨none, "", ""⟩ ⟨none, "out", "hook output"⟩ "m" false).2.2.1 rfl).2 (by decide),
          (C6_diagnostic_asymmetry ⟨none, "", "warning: x"⟩ ⟨none, "", ""⟩ ⟨some "boom", "", ""⟩ "m" false).2.2.2 "boom" rfl⟩

/-- Claim C4: when the staged-path list is empty or its sole entry is
the empty string, the flow prints the nothing-staged notice and stops
normally, with no file read, no prompt construction, no generation call
and no commit. -/
theorem C4_nothing_staged (env : Env) (cfg : Config) (files : List String) (diff : String)
    (hc : env.configFile = some (Except.ok cfg))
    (hp : cfg.aiProvider = "Anthropic")
    (hs : getStagedFilesAndDiff env.stagedExec env.diffExec = Except.ok (files, diff))
    (h0 : files.length = 0 ∨ files.head? = some "") :
    defaultCommand env =
      ⟨[Action.print "Executing commit...",
        Action.print "No files in staging. Add files before committing."], none⟩ := by
  unfold defaultCommand
  rw [hc]
  simp only [hp, if_true, hs]
  rw [if_pos h0]
  rfl

/-- Claim C4 witness: a run whose staged-files query prints nothing
takes the nothing-staged exit. -/
theorem C4_nothing_staged_witness :
    envNothing.configFile =
      some (Except.ok ⟨"Anthropic", "tok", [⟨"feat", "A new feature", some true⟩]⟩) ∧
    getStagedFilesAndDiff envNothing.stagedExec envNothing.diffExec =
      Except.ok ([""], "+console.log(1)") ∧
    defaultCommand envNothing =
      ⟨[Action.print "Executing commit...",
        Action.print "No files in staging. Add files before committing."], none⟩ := by
  refine ⟨by decide, by decide, ?_⟩
  exact C4_nothing_staged envNothing
    ⟨"Anthropic", "tok", [⟨"feat", "A new feature", some true⟩]⟩ [""] "+console.log(1)"
    (by decide) (by decide) (by decide) (Or.inr (by decide))

/-- Claim C7 counterexample: with the configuration file present but
its content unparseable, the run ends with the parse failure as an
uncaught error and no user-visible message is printed for it — the
claim's caught-and-converted behavior does not happen. -/
theorem C7_counterexample :
    defaultCommand envCorrupt =
      ⟨[Action.print "Executing commit..."],
       some (RunError.configCorrupt "Unexpected token")⟩ := by
  decide

/-- Claim C7 amended: loading fails when the stored content cannot be
parsed, but the failure is not caught anywhere — it escapes the flow as
an uncaught error; only the missing-file case is caught and converted
to a user-visible message. -/
theorem C7_amended :
    (∀ (env : Env) (e : String), env.configFile = some (Except.error e) →
        defaultCommand env =
          ⟨[Action.print "Executing commit..."], some (RunError.configCorrupt e)⟩) ∧
    (∀ env : Env, env.configFile = none →
        defaultCommand env =
          ⟨[Action.print "Executing commit...",
            Action.print "Configuration not found. Please run \"commit --setup\" first."],
           none⟩) := by
  constructor
  · intro env e h
    unfold defaultCommand
    rw [h]
  · intro env h
    unfold defaultCommand
    rw [h]
    rfl

theorem customPiece_amended (p : String) :
    (if customPairKept (customPairOf p) then some (customEntryOf (customPairOf p)) else none) =
    (match (jsSplit ':' p).map jsTrim with
      | [] => none
      | [_] => none
      | n :: d :: _ =>
        if n ≠ "" ∧ d ≠ "" then some (⟨n, d, none⟩ : ConfigEntry) else none) := by
  rcases hs : (jsSplit ':' p).map jsTrim with _ | ⟨n, _ | ⟨d, rest⟩⟩
  · simp [customPairOf, customPairKept, hs]
  · simp [customPairOf, customPairKept, hs]
  · simp only [customPairOf, customPairKept, customEntryOf, hs]
    by_cases hn : n = ""
    · simp [hn]
    · by_cases hd : d = ""
      · simp [hn, hd]
      · simp [hn, hd]

theorem parseCustom_amended (input : String) :
    (parseCustomCommitTypes input).map customEntryOf = amendedParseCustomTypes input := by
  unfold parseCustomCommitTypes amendedParseCustomTypes
  induction jsSplit ',' input with
  | nil => rfl
  | cons x xs ih =>
    simp only [List.map_cons, List.filter_cons, List.filterMap_cons]
    rw [← customPiece_amended x]
    by_cases hk : customPairKept (customPairOf x) = true
    · simp [hk, ih]
    · simp [hk, ih]

/-- Claim C3 counterexample: on the input `"url:a:b"` the code keeps
only the segment between the first and second colon as the description
(`"a"`), while splitting on the first colon, as the claim words it,
would keep `"a:b"`. -/
theorem C3_counterexample :
    (parseCustomCommitTypes "url:a:b").map customEntryOf =
      [(⟨"url", "a", none⟩ : ConfigEntry)] ∧
    specParseCustomTypes "url:a:b" = [(⟨"url", "a:b", none⟩ : ConfigEntry)] ∧
    (("a" : String) == "a:b") = false := by
  decide

/-- Claim C3 amended: each pair is split on EVERY colon with each
segment trimmed; the first two segments become name and description
(text after a second colon is discarded); pairs lacking a nonempty name
or a nonempty description are silently dropped; and the final
commitTypes saved by setup equal the selected defaults followed by the
parsed custom types, order preserved. -/
theorem C3_custom_types_amended :
    (∀ input, (parseCustomCommitTypes input).map customEntryOf =
        amendedParseCustomTypes input) ∧
    (∀ (home : String) (a : SetupAnswers),
      (setup home a).trace =
        [Action.print "Running setup...",
         Action.saveConfig ⟨a.aiProvider, a.apiToken,
           a.commitTypes ++ amendedParseCustomTypes a.customCommitTypes⟩,
         Action.print ("Configuration saved in " ++ getGlobalConfigPath home)]) := by
  refine ⟨parseCustom_amended, fun home a => ?_⟩
  simp [setup, parseCustom_amended a.customCommitTypes]

example : amendedParseCustomTypes "build:ci tweaks" =
    [(⟨"build", "ci tweaks", none⟩ : ConfigEntry)] := by decide

example : amendedParseCustomTypes " build : ci tweaks , bad, x:, :y " =
    [(⟨"build", "ci tweaks", none⟩ : ConfigEntry)] := by decide

/-- Claim C1: a commit is executed only when the confirmation question
was asked and answered affirmatively in that run — the commit action
appears in the trace only after the confirmation action and only with
`confirmAnswer` true — and no other code path (the setup branch
included) produces a commit action. -/
theorem C1_commit_only_after_confirmation (env : Env) (m : String) (s : Bool)
    (h : Action.commit m s ∈ (cliMain env).trace) :
    env.setupFlag = false ∧ env.confirmAnswer = true ∧
    ∃ pre post, (cliMain env).trace = pre ++ Action.askConfirm :: post ∧
      Action.commit m s ∈ post := by
  obtain ⟨h1, h2, _, _, _, _, _, _, _, _, _, _, _, _, pre, post, ht, hm, _⟩ :=
    commit_mem_spec env m s h
  exact ⟨h1, h2, pre, post, ht, hm⟩

/-- Claim C1 witness: the approved sample run does commit, and the
theorem's conclusions hold for it. -/
theorem C1_commit_only_after_confirmation_witness :
    Action.commit "feat: add logging\n\nadds a debug log line" false ∈
      (cliMain envHappy).trace ∧
    envHappy.setupFlag = false ∧ envHappy.confirmAnswer = true ∧
    ∃ pre post, (cliMain envHappy).trace = pre ++ Action.askConfirm :: post ∧
      Action.commit "feat: add logging\n\nadds a debug log line" false ∈ post := by
  have hmem : Action.commit "feat: add logging\n\nadds a debug log line" false ∈
      (cliMain envHappy).trace := by decide
  exact ⟨hmem, C1_commit_only_after_confirmation envHappy _ _ hmem⟩

/-- Claim C2: when the user approves a generated message the commit is
invoked with exactly that text, unchanged (and the run's sign flag);
conversely every commit action carries exactly a text the generation
service returned for the prompt recorded in the trace — the displayed
subject/body split does not alter what is committed. -/
theorem C2_commit_message_verbatim :
    (∀ (env : Env) (cfg : Config) (stagedFiles : List String) (diff : String)
        (reads : List Action) (fc m : String),
      env.setupFlag = false →
      env.configFile = some (Except.ok cfg) →
      cfg.aiProvider = "Anthropic" →
      getStagedFilesAndDiff env.stagedExec env.diffExec = Except.ok (stagedFiles, diff) →
      ¬(stagedFiles.length = 0 ∨ stagedFiles.head? = some "") →
      getFilesContent env.readFile stagedFiles = (reads, Except.ok fc) →
      env.gen cfg.apiToken (promptText fc diff cfg.commitTypes) = Except.ok m →
      env.confirmAnswer = true →
      Action.commit m env.signFlag ∈ (cliMain env).trace) ∧
    (∀ (env : Env) (m : String) (s : Bool),
      Action.commit m s ∈ (cliMain env).trace →
      s = env.signFlag ∧
      ∃ p, Action.generate p ∈ (cliMain env).trace ∧
        ∃ tok, env.gen tok p = Except.ok m) := by
  constructor
  · intro env cfg stagedFiles diff reads fc m h0 h1 h2 h3 h4 h5 h6 h7
    have htr : cliMain env = defaultCommand env := by simp [cliMain, h0]
    rw [htr]
    simp only [defaultCommand, h1, h2, if_true, h3]
    rw [if_neg h4]
    simp only [h5, generateCommitMessage, h6, if_pos h7, makeCommit]
    rcases hce : env.commitExec.error with _ | ce <;>
      simp [List.mem_append]
  · intro env m s h
    obtain ⟨_, _, h3, cfg, sf, d, r, f, _, _, _, _, _, hg, pre, post, ht, _, hgen⟩ :=
      commit_mem_spec env m s h
    refine ⟨h3, promptText f d cfg.commitTypes, ?_, cfg.apiToken, hg⟩
    rw [ht]
    exact List.mem_append_left _ hgen

/-- Claim C2 witness: in the approved sample run the commit action
occurs and carries the exact generated text and sign flag false. -/
theorem C2_commit_message_verbatim_witness :
    Action.commit "feat: add logging\n\nadds a debug log line" false ∈
      (cliMain envHappy).trace ∧
    false = envHappy.signFlag ∧
    ∃ p, Action.generate p ∈ (cliMain envHappy).trace ∧
      ∃ tok, envHappy.gen tok p =
        Except.ok "feat: add logging\n\nadds a debug log line" := by
  have hmem : Action.commit "feat: add logging\n\nadds a debug log line" false ∈
      (cliMain envHappy).trace :=
    C2_commit_message_verbatim.1 envHappy
      ⟨"Anthropic", "tok", [⟨"feat", "A new feature", some true⟩]⟩
      ["a.js"] "+console.log(1)" [Action.fileRead "a.js"] "File: a.js\nconsole.log(1)\n\n"
      "feat: add logging\n\nadds a debug log line"
      rfl (by decide) rfl (by decide) (by decide) (by decide) (by decide) rfl
  exact ⟨hmem, C2_commit_message_verbatim.2 envHappy _ _ hmem⟩

/-- Claim C8 counterexample: splitting `"feat: add x\n\nbody line"`
yields subject `"feat: add x"`, but the remaining lines are
`["", "body line"]`, whose rejoining with line breaks is
`"\nbody line"`, not the claimed `"body line"`. -/
theorem C8_counterexample :
    messageSubject "feat: add x\n\nbody line" = "feat: add x" ∧
    messageBody "feat: add x\n\nbody line" = ["", "body line"] ∧
    (String.intercalate "\n" (messageBody "feat: add x\n\nbody line") == "body line") = false := by
  decide

/-- Claim C8 amended: the split yields subject `"feat: add x"` and
remaining lines `["", "body line"]`, rejoined as `"\nbody line"` (the
blank separator line is preserved); and on a declined confirmation no
commit action ever occurs. -/
theorem C8_amended :
    messageSubject "feat: add x\n\nbody line" = "feat: add x" ∧
    String.intercalate "\n" (messageBody "feat: add x\n\nbody line") = "\nbody line" ∧
    ∀ (env : Env) (m : String) (s : Bool), env.confirmAnswer = false →
      Action.commit m s ∉ (cliMain env).trace := by
  refine ⟨by decide, by decide, ?_⟩
  intro env m s hc hmem
  obtain ⟨_, h2, _⟩ := commit_mem_spec env m s hmem
  rw [hc] at h2
  exact Bool.false_ne_true h2

/-- Claim C8 amended witness: the declined sample run never commits. -/
theorem C8_amended_witness :
    envDecline.confirmAnswer = false ∧
    Action.commit "feat: add logging\n\nadds a debug log line" false ∉
      (cliMain envDecline).trace :=
  ⟨rfl, C8_amended.2.2 envDecline _ _ rfl⟩

/-! Round-trip of the configuration store's JSON codec. -/

theorem hexVal_hexDigitChar : ∀ n < 16, hexVal (hexDigitChar n) = some n := by decide

theorem ofNatAux_toNat (c : Char) (h : c.toNat.isValidChar) :
    Char.ofNatAux c.toNat h = c := by
  have hofn := Char.ofNat_toNat c
  unfold Char.ofNat at hofn
  rw [dif_pos h] at hofn
  exact hofn

theorem parseStringBody_escape :
    ∀ (cs rest : List Char),
      parseStringBody (escapeString cs ++ '"' :: rest) = some (cs, rest) := by
  intro cs
  induction cs with
  | nil => intro rest; rw [parseStringBody.eq_def]; simp [escapeString]
  | cons c cs ih =>
    intro rest
    simp only [escapeString, List.append_assoc]
    by_cases h1 : c = '"'
    · subst h1; rw [escapeChar, parseStringBody.eq_def]; simp [namedEscape, ih]
    · by_cases h2 : c = '\\'
      · subst h2; rw [escapeChar, parseStringBody.eq_def]; simp [namedEscape, ih]
      · by_cases h3 : c = '\x08'
        · subst h3; rw [escapeChar, parseStringBody.eq_def]; simp [namedEscape, ih]
        · by_cases h4 : c = '\x09'
          · subst h4; rw [escapeChar, parseStringBody.eq_def]; simp [namedEscape, ih]
          · by_cases h5 : c = '\x0a'
            · subst h5; rw [escapeChar, parseStringBody.eq_def]; simp [namedEscape, ih]
            · by_cases h6 : c = '\x0c'
              · subst h6; rw [escapeChar, parseStringBody.eq_def]; simp [namedEscape, ih]
              · by_cases h7 : c = '\x0d'
                · subst h7; rw [escapeChar, parseStringBody.eq_def]; simp [namedEscape, ih]
                · by_cases h8 : c.toNat < 32
                  · have hdiv : c.toNat / 16 < 16 := by omega
                    have hmod : c.toNat % 16 < 16 := Nat.mod_lt _ (by omega)
                    have hv : (c.toNat).isValidChar := Or.inl (by omega)
                    rw [escapeChar.eq_def]
                    simp only [h1, h2, h3, h4, h5, h6, h7, h8, if_false, if_true,
                      ite_true, ite_false, if_neg, if_pos]
                    rw [parseStringBody.eq_def]
                    simp only [List.cons_append, List.nil_append]
                    rw [hexVal_hexDigitChar _ hdiv, hexVal_hexDigitChar _ hmod]
                    have h0 : hexVal '0' = some 0 := by decide
                    rw [h0]
                    simp only []
                    have hn : ((0 * 16 + 0) * 16 + c.toNat / 16) * 16 + c.toNat % 16 = c.toNat := by
                      omega
                    rw [hn]
                    rw [dif_pos hv, ih, ofNatAux_toNat c hv]
                    simp
                  · rw [escapeChar.eq_def]
                    simp only [h1, h2, h3, h4, h5, h6, h7, h8, if_false, ite_false]
                    rw [parseStringBody.eq_def]
                    simp [h1, h2, h8, ih]

theorem skipWs_ws_append (ws cs : List Char) (h : ∀ c ∈ ws, isWsChar c = true) :
    skipWs (ws ++ cs) = skipWs cs := by
  induction ws with
  | nil => simp
  | cons w ws ih =>
    have hw : isWsChar w = true := h w (by simp)
    simp only [List.cons_append, skipWs, hw, if_true]
    exact ih (fun c hc => h c (by simp [hc]))

theorem skipWs_cons_not (c : Char) (cs : List Char) (h : isWsChar c = false) :
    skipWs (c :: cs) = c :: cs := by
  simp [skipWs, h]

theorem jsonIndent_ws (k : Nat) : ∀ c ∈ jsonIndent k, isWsChar c = true := by
  intro c hc
  rw [jsonIndent, List.mem_replicate] at hc
  rw [hc.2]
  decide

theorem skipWs_indent (k : Nat) (cs : List Char) :
    skipWs (jsonIndent k ++ cs) = skipWs cs :=
  skipWs_ws_append _ _ (jsonIndent_ws k)

theorem skipWs_newline (cs : List Char) : skipWs ('\n' :: cs) = skipWs cs := by
  simp [skipWs, isWsChar]

theorem printJson_head (k : Nat) (j : Json) :
    ∃ c cs, printJson k j = c :: cs ∧ isWsChar c = false ∧
      c ≠ ']' ∧ c ≠ '\x7d' ∧ c ≠ ',' := by
  cases j with
  | null => exact ⟨'n', _, rfl, by decide, by decide, by decide, by decide⟩
  | bool b =>
    cases b with
    | true => exact ⟨'t', _, rfl, by decide, by decide, by decide, by decide⟩
    | false => exact ⟨'f', _, rfl, by decide, by decide, by decide, by decide⟩
  | str s => exact ⟨'"', _, rfl, by decide, by decide, by decide, by decide⟩
  | arr items =>
    cases items with
    | nil => exact ⟨'[', _, rfl, by decide, by decide, by decide, by decide⟩
    | cons j js => exact ⟨'[', _, rfl, by decide, by decide, by decide, by decide⟩
  | obj fields =>
    cases fields with
    | nil => exact ⟨'\x7b', _, rfl, by decide, by decide, by decide, by decide⟩
    | cons key v fs => exact ⟨'\x7b', _, rfl, by decide, by decide, by decide, by decide⟩

theorem parseValue_ws (fuel : Nat) (ws cs : List Char) (h : ∀ c ∈ ws, isWsChar c = true) :
    parseValue fuel (ws ++ cs) = parseValue fuel cs := by
  cases fuel with
  | zero => rfl
  | succ fuel =>
    simp only [parseValue]
    rw [skipWs_ws_append ws cs h]

theorem parseItems_ws (fuel : Nat) (ws cs : List Char) (h : ∀ c ∈ ws, isWsChar c = true) :
    parseItems fuel (ws ++ cs) = parseItems fuel cs := by
  cases fuel with
  | zero => rfl
  | succ fuel =>
    simp only [parseItems]
    rw [parseValue_ws fuel ws cs h]

theorem parseFields_ws (fuel : Nat) (ws cs : List Char) (h : ∀ c ∈ ws, isWsChar c = true) :
    parseFields fuel (ws ++ cs) = parseFields fuel cs := by
  cases fuel with
  | zero => rfl
  | succ fuel =>
    simp only [parseFields]
    rw [skipWs_ws_append ws cs h]

theorem sizeJ_pos (j : Json) : 1 ≤ sizeJ j := by
  cases j <;> simp [sizeJ]

theorem sizeItemsJ_pos (js : JsonList) : 1 ≤ sizeItemsJ js := by
  cases js with
  | nil => simp [sizeItemsJ]
  | cons j tl => simp only [sizeItemsJ]; omega

theorem sizeFieldsJ_pos (fs : JsonFields) : 1 ≤ sizeFieldsJ fs := by
  cases fs with
  | nil => simp [sizeFieldsJ]
  | cons key v tl => simp only [sizeFieldsJ]; omega

theorem printItems_cons (k : Nat) (j : Json) (js : JsonList) :
    ∃ t, printItems k (JsonList.cons j js) = jsonIndent k ++ (printJson k j ++ t) ∧
      (js = JsonList.nil → t = []) ∧
      (∀ j2 js2, js = JsonList.cons j2 js2 →
        t = ',' :: '\n' :: printItems k (JsonList.cons j2 js2)) := by
  cases js with
  | nil =>
    refine ⟨[], by simp [printItems], ?_, ?_⟩
    · intro _; rfl
    · intro j2 js2 h; cases h
  | cons j2 js2 =>
    refine ⟨',' :: '\n' :: printItems k (JsonList.cons j2 js2),
      by simp [printItems, List.append_assoc], ?_, ?_⟩
    · intro h; cases h
    · intro j3 js3 h
      cases h
      rfl

theorem printFields_cons (k : Nat) (key : String) (v : Json) (fs : JsonFields) :
    ∃ t, printFields k (JsonFields.cons key v fs) =
        jsonIndent k ++ (printString key ++ ':' :: ' ' :: (printJson k v ++ t)) ∧
      (fs = JsonFields.nil → t = []) ∧
      (∀ key2 v2 fs2, fs = JsonFields.cons key2 v2 fs2 →
        t = ',' :: '\n' :: printFields k (JsonFields.cons key2 v2 fs2)) := by
  cases fs with
  | nil =>
    refine ⟨[], by simp [printFields], ?_, ?_⟩
    · intro _; rfl
    · intro k2 v2 fs2 h; cases h
  | cons key2 v2 fs2 =>
    refine ⟨',' :: '\n' :: printFields k (JsonFields.cons key2 v2 fs2),
      by simp [printFields, List.append_assoc], ?_, ?_⟩
    · intro h; cases h
    · intro k3 v3 fs3 h
      cases h
      rfl

theorem parseValue_quote (fuel : Nat) (r0 : List Char) :
    parseValue (fuel + 1) ('"' :: r0) =
      (match parseStringBody r0 with
       | some (cs2, r) => some (Json.str (String.mk cs2), r)
       | none => none) := rfl

theorem parseValue_lbracket (fuel : Nat) (r0 : List Char) :
    parseValue (fuel + 1) ('[' :: r0) =
      (match skipWs r0 with
       | [] => none
       | c :: r2 =>
         if c = ']' then some (Json.arr JsonList.nil, r2)
         else
           match parseItems fuel (c :: r2) with
           | some (js, r3) => some (Json.arr js, r3)
           | none => none) := rfl

theorem parseValue_lbrace (fuel : Nat) (r0 : List Char) :
    parseValue (fuel + 1) ('\x7b' :: r0) =
      (match skipWs r0 with
       | [] => none
       | c :: r2 =>
         if c = '\x7d' then some (Json.obj JsonFields.nil, r2)
         else
           match parseFields fuel (c :: r2) with
           | some (fs, r3) => some (Json.obj fs, r3)
           | none => none) := rfl

theorem parseItems_succ (fuel : Nat) (cs : List Char) :
    parseItems (fuel + 1) cs =
      (match parseValue fuel cs with
       | none => none
       | some (j, r1) =>
         match skipWs r1 with
         | [] => none
         | c :: r2 =>
           if c = ',' then
             match parseItems fuel r2 with
             | some (js, r3) => some (JsonList.cons j js, r3)
             | none => none
           else if c = ']' then some (JsonList.cons j JsonList.nil, r2)
           else none) := rfl

theorem parseFields_succ (fuel : Nat) (cs : List Char) :
    parseFields (fuel + 1) cs =
      (match skipWs cs with
       | [] => none
       | c :: r0 =>
         if c = '"' then
           match parseStringBody r0 with
           | none => none
           | some (key, r1) =>
             match skipWs r1 with
             | [] => none
             | c1 :: r2 =>
               if c1 = ':' then
                 match parseValue fuel r2 with
                 | none => none
                 | some (v, r3) =>
                   match skipWs r3 with
                   | [] => none
                   | c2 :: r4 =>
                     if c2 = ',' then
                       match parseFields fuel r4 with
                       | none => none
                       | some (fs, r5) => some (JsonFields.cons (String.mk key) v fs, r5)
                     else if c2 = '\x7d' then
                       some (JsonFields.cons (String.mk key) v JsonFields.nil, r4)
                     else none
               else none
         else none) := rfl

theorem parsePrint : ∀ fuel : Nat,
    (∀ k j rest, sizeJ j ≤ fuel →
       parseValue fuel (printJson k j ++ rest) = some (j, rest)) ∧
    (∀ k j js k2 rest, sizeJ j + sizeItemsJ js < fuel →
       parseItems fuel
         (printItems k (JsonList.cons j js) ++ '\n' :: (jsonIndent k2 ++ (']' :: rest))) =
         some (JsonList.cons j js, rest)) ∧
    (∀ k key v fs k2 rest, sizeJ v + sizeFieldsJ fs < fuel →
       parseFields fuel
         (printFields k (JsonFields.cons key v fs) ++ '\n' :: (jsonIndent k2 ++ ('\x7d' :: rest))) =
         some (JsonFields.cons key v fs, rest)) := by
  intro fuel
  induction fuel with
  | zero =>
    refine ⟨?_, ?_, ?_⟩
    · intro k j rest hsz
      have := sizeJ_pos j
      omega
    · intro k j js k2 rest hsz
      omega
    · intro k key v fs k2 rest hsz
      omega
  | succ fuel ih =>
    obtain ⟨ihv, ihi, ihf⟩ := ih
    refine ⟨?_, ?_, ?_⟩
    · intro k j rest hsz
      cases j with
      | null => rfl
      | bool b => cases b <;> rfl
      | str s =>
        simp only [printJson, printString, List.cons_append, List.append_assoc,
          List.nil_append]
        rw [parseValue_quote, parseStringBody_escape]
      | arr items =>
        cases items with
        | nil => rfl
        | cons j js =>
          simp only [printJson, List.cons_append, List.nil_append, List.append_assoc]
          rw [parseValue_lbracket]
          obtain ⟨t, hpi, hnil, hcons⟩ := printItems_cons (k + 1) j js
          obtain ⟨c0, cs0, hj, hws, hbr, hbrace, hcm⟩ := printJson_head (k + 1) j
          have hskip :
              skipWs ('\n' :: (printItems (k + 1) (JsonList.cons j js) ++
                  '\n' :: (jsonIndent k ++ (']' :: rest)))) =
                c0 :: (cs0 ++ (t ++ '\n' :: (jsonIndent k ++ (']' :: rest)))) := by
            rw [skipWs_newline, hpi, List.append_assoc, skipWs_indent, List.append_assoc,
              hj, List.cons_append]
            exact skipWs_cons_not _ _ hws
          rw [hskip]
          simp only []
          rw [if_neg hbr]
          have hback : c0 :: (cs0 ++ (t ++ '\n' :: (jsonIndent k ++ (']' :: rest)))) =
              printJson (k + 1) j ++ (t ++ '\n' :: (jsonIndent k ++ (']' :: rest))) := by
            rw [hj, List.cons_append]
          rw [hback,
            ← parseItems_ws fuel (jsonIndent (k + 1)) _ (jsonIndent_ws _)]
          have hfold : jsonIndent (k + 1) ++
              (printJson (k + 1) j ++ (t ++ '\n' :: (jsonIndent k ++ (']' :: rest)))) =
              printItems (k + 1) (JsonList.cons j js) ++
                '\n' :: (jsonIndent k ++ (']' :: rest)) := by
            rw [hpi]
            simp [List.append_assoc]
          rw [hfold]
          have hsize : sizeJ j + sizeItemsJ js < fuel := by
            simp only [sizeJ, sizeItemsJ] at hsz
            omega
          rw [ihi (k + 1) j js k rest hsize]
      | obj fields =>
        cases fields with
        | nil => rfl
        | cons key v fs =>
          simp only [printJson, List.cons_append, List.nil_append, List.append_assoc]
          rw [parseValue_lbrace]
          obtain ⟨t, hpf, hnil, hcons⟩ := printFields_cons (k + 1) key v fs
          have hskip :
              skipWs ('\n' :: (printFields (k + 1) (JsonFields.cons key v fs) ++
                  '\n' :: (jsonIndent k ++ ('\x7d' :: rest)))) =
                '"' :: (escapeString key.data ++
                  ('"' :: (':' :: ' ' :: (printJson (k + 1) v ++
                    (t ++ '\n' :: (jsonIndent k ++ ('\x7d' :: rest))))))) := by
            rw [skipWs_newline, hpf, List.append_assoc, skipWs_indent]
            simp only [printString, List.cons_append, List.append_assoc, List.nil_append]
            exact skipWs_cons_not _ _ (by decide)
          rw [hskip]
          simp only []
          rw [if_neg (by decide : ¬('"' : Char) = '\x7d')]
          have hback : ('"' : Char) :: (escapeString key.data ++
                ('"' :: (':' :: ' ' :: (printJson (k + 1) v ++
                  (t ++ '\n' :: (jsonIndent k ++ ('\x7d' :: rest))))))) =
              printString key ++ (':' :: ' ' :: (printJson (k + 1) v ++
                (t ++ '\n' :: (jsonIndent k ++ ('\x7d' :: rest))))) := by
            simp [printString, List.cons_append, List.append_assoc]
          rw [hback,
            ← parseFields_ws fuel (jsonIndent (k + 1)) _ (jsonIndent_ws _)]
          have hfold : jsonIndent (k + 1) ++
              (printString key ++ (':' :: ' ' :: (printJson (k + 1) v ++
                (t ++ '\n' :: (jsonIndent k ++ ('\x7d' :: rest)))))) =
              printFields (k + 1) (JsonFields.cons key v fs) ++
                '\n' :: (jsonIndent k ++ ('\x7d' :: rest)) := by
            rw [hpf]
            simp [List.append_assoc]
          rw [hfold]
          have hsize : sizeJ v + sizeFieldsJ fs < fuel := by
            simp only [sizeJ, sizeFieldsJ] at hsz
            omega
          rw [ihf (k + 1) key v fs k rest hsize]
    · intro k j js k2 rest hsz
      rw [parseItems_succ]
      obtain ⟨t, hpi, hnil, hcons⟩ := printItems_cons k j js
      rw [hpi, List.append_assoc, List.append_assoc,
        parseValue_ws fuel (jsonIndent k) _ (jsonIndent_ws k)]
      have hjsz : sizeJ j ≤ fuel := by
        have := sizeItemsJ_pos js
        omega
      rw [ihv k j _ hjsz]
      simp only []
      cases js with
      | nil =>
        rw [hnil rfl]
        have hskip : skipWs (([] : List Char) ++ '\n' :: (jsonIndent k2 ++ (']' :: rest))) =
            ']' :: rest := by
          rw [List.nil_append, skipWs_newline, skipWs_indent]
          exact skipWs_cons_not _ _ (by decide)
        rw [hskip]
        simp
      | cons j2 js2 =>
        rw [hcons j2 js2 rfl]
        have hskip : skipWs ((',' :: '\n' :: printItems k (JsonList.cons j2 js2)) ++
            '\n' :: (jsonIndent k2 ++ (']' :: rest))) =
            ',' :: ('\n' :: printItems k (JsonList.cons j2 js2) ++
              '\n' :: (jsonIndent k2 ++ (']' :: rest))) := by
          rw [List.cons_append]
          exact skipWs_cons_not _ _ (by decide)
        rw [hskip]
        simp only [if_true, List.cons_append]
        rw [show ('\n' :: (printItems k (JsonList.cons j2 js2) ++
              '\n' :: (jsonIndent k2 ++ (']' :: rest)))) =
            ['\n'] ++ (printItems k (JsonList.cons j2 js2) ++
              '\n' :: (jsonIndent k2 ++ (']' :: rest))) from rfl,
          parseItems_ws fuel ['\n'] _ (by decide)]
        have hsize : sizeJ j2 + sizeItemsJ js2 < fuel := by
          simp only [sizeItemsJ] at hsz
          omega
        rw [ihi k j2 js2 k2 rest hsize]
    · intro k key v fs k2 rest hsz
      rw [parseFields_succ]
      obtain ⟨t, hpf, hnil, hcons⟩ := printFields_cons k key v fs
      have hskip : skipWs (printFields k (JsonFields.cons key v fs) ++
          '\n' :: (jsonIndent k2 ++ ('\x7d' :: rest))) =
          '"' :: (escapeString key.data ++
            ('"' :: (':' :: ' ' :: (printJson k v ++
              (t ++ '\n' :: (jsonIndent k2 ++ ('\x7d' :: rest))))))) := by
        rw [hpf, List.append_assoc, skipWs_indent]
        simp only [printString, List.cons_append, List.append_assoc, List.nil_append]
        exact skipWs_cons_not _ _ (by decide)
      rw [hskip]
      simp only [if_true]
      rw [parseStringBody_escape]
      simp only []
      rw [skipWs_cons_not _ _ (by decide : isWsChar ':' = false)]
      simp only [if_true]
      rw [show (' ' :: (printJson k v ++
            (t ++ '\n' :: (jsonIndent k2 ++ ('\x7d' :: rest))))) =
          [' '] ++ (printJson k v ++
            (t ++ '\n' :: (jsonIndent k2 ++ ('\x7d' :: rest)))) from rfl,
        parseValue_ws fuel [' '] _ (by decide)]
      have hvsz : sizeJ v ≤ fuel := by
        have := sizeFieldsJ_pos fs
        omega
      rw [ihv k v _ hvsz]
      simp only []
      cases fs with
      | nil =>
        rw [hnil rfl]
        have hskip2 : skipWs (([] : List Char) ++ '\n' :: (jsonIndent k2 ++ ('\x7d' :: rest))) =
            '\x7d' :: rest := by
          rw [List.nil_append, skipWs_newline, skipWs_indent]
          exact skipWs_cons_not _ _ (by decide)
        rw [hskip2]
        rfl
      | cons key2 v2 fs2 =>
        rw [hcons key2 v2 fs2 rfl]
        have hskip2 : skipWs ((',' :: '\n' :: printFields k (JsonFields.cons key2 v2 fs2)) ++
            '\n' :: (jsonIndent k2 ++ ('\x7d' :: rest))) =
            ',' :: ('\n' :: printFields k (JsonFields.cons key2 v2 fs2) ++
              '\n' :: (jsonIndent k2 ++ ('\x7d' :: rest))) := by
          rw [List.cons_append]
          exact skipWs_cons_not _ _ (by decide)
        rw [hskip2]
        simp only [if_true, List.cons_append]
        rw [show ('\n' :: (printFields k (JsonFields.cons key2 v2 fs2) ++
              '\n' :: (jsonIndent k2 ++ ('\x7d' :: rest)))) =
            ['\n'] ++ (printFields k (JsonFields.cons key2 v2 fs2) ++
              '\n' :: (jsonIndent k2 ++ ('\x7d' :: rest))) from rfl,
          parseFields_ws fuel ['\n'] _ (by decide)]
        have hsize : sizeJ v2 + sizeFieldsJ fs2 < fuel := by
          simp only [sizeFieldsJ] at hsz
          omega
        rw [ihf k key2 v2 fs2 k2 rest hsize]

mutual

theorem sizeJ_le_len : ∀ (k : Nat) (j : Json), sizeJ j ≤ (printJson k j).length
  | _, Json.null => by simp [sizeJ, printJson]
  | _, Json.bool b => by cases b <;> simp [sizeJ, printJson]
  | _, Json.str s => by
    simp [sizeJ, printJson, printString]
  | _, Json.arr JsonList.nil => by simp [sizeJ, sizeItemsJ, printJson]
  | k, Json.arr (JsonList.cons j js) => by
    have h := sizeItems_le_len (k + 1) (JsonList.cons j js) (by omega)
    simp only [sizeJ, printJson, List.length_cons, List.length_append, jsonIndent,
      List.length_replicate, List.length_nil]
    omega
  | _, Json.obj JsonFields.nil => by simp [sizeJ, sizeFieldsJ, printJson]
  | k, Json.obj (JsonFields.cons key v fs) => by
    have h := sizeFields_le_len (k + 1) (JsonFields.cons key v fs) (by omega)
    simp only [sizeJ, printJson, List.length_cons, List.length_append, jsonIndent,
      List.length_replicate, List.length_nil]
    omega

theorem sizeItems_le_len : ∀ (k : Nat) (js : JsonList), 1 ≤ k →
    sizeItemsJ js ≤ (printItems k js).length + 1
  | _, JsonList.nil, _ => by simp [sizeItemsJ, printItems]
  | k, JsonList.cons j JsonList.nil, hk => by
    have h := sizeJ_le_len k j
    simp only [sizeItemsJ, printItems, List.length_append, jsonIndent,
      List.length_replicate]
    omega
  | k, JsonList.cons j (JsonList.cons j2 js2), hk => by
    have h1 := sizeJ_le_len k j
    have h2 := sizeItems_le_len k (JsonList.cons j2 js2) hk
    simp only [sizeItemsJ, printItems, List.length_append, List.length_cons, jsonIndent,
      List.length_replicate] at *
    omega

theorem sizeFields_le_len : ∀ (k : Nat) (fs : JsonFields), 1 ≤ k →
    sizeFieldsJ fs ≤ (printFields k fs).length + 1
  | _, JsonFields.nil, _ => by simp [sizeFieldsJ, printFields]
  | k, JsonFields.cons key v JsonFields.nil, hk => by
    have h := sizeJ_le_len k v
    simp only [sizeFieldsJ, printFields, List.length_append, List.length_cons, jsonIndent,
      List.length_replicate]
    omega
  | k, JsonFields.cons key v (JsonFields.cons key2 v2 fs2), hk => by
    have h1 := sizeJ_le_len k v
    have h2 := sizeFields_le_len k (JsonFields.cons key2 v2 fs2) hk
    simp only [sizeFieldsJ, printFields, List.length_append, List.length_cons, jsonIndent,
      List.length_replicate] at *
    omega

end

theorem entryFromJson_toJson (e : ConfigEntry) : entryFromJson (entryToJson e) = some e := by
  rcases e with ⟨n, d, _ | b⟩ <;> rfl

theorem entriesFromJson_toJson (l : List ConfigEntry) :
    entriesFromJson (jsonListOf (l.map entryToJson)) = some l := by
  induction l with
  | nil => rfl
  | cons e l ih =>
    simp only [List.map_cons, jsonListOf, entriesFromJson, entryFromJson_toJson, ih]

theorem configFromJson_toJson (c : Config) : configFromJson (configToJson c) = some c := by
  rcases c with ⟨p, t, types⟩
  have h : configFromJson (configToJson ⟨p, t, types⟩) =
      (match entriesFromJson (jsonListOf (types.map entryToJson)) with
       | some entries => some (⟨p, t, entries⟩ : Config)
       | none => none) := rfl
  rw [h, entriesFromJson_toJson]

/-- Claim C9: saving any configuration record (serializing it with the
two-space-indent JSON writer to the configuration file) and loading it
back (JSON parse plus the record shape) yields the same record. -/
theorem C9_config_roundtrip (c : Config) :
    ConfigStore.load (ConfigStore.save c) = some c := by
  unfold ConfigStore.load ConfigStore.save parseJsonText
  have hd : (String.mk (printJson 0 (configToJson c))).data = printJson 0 (configToJson c) :=
    rfl
  rw [hd]
  have hsz : sizeJ (configToJson c) ≤ (printJson 0 (configToJson c)).length + 1 := by
    have := sizeJ_le_len 0 (configToJson c)
    omega
  have hp := (parsePrint ((printJson 0 (configToJson c)).length + 1)).1 0
    (configToJson c) [] hsz
  rw [List.append_nil] at hp
  rw [hp]
  simp only [skipWs, if_true]
  exact configFromJson_toJson c

example :
    ConfigStore.load (ConfigStore.save
      ⟨"Anthropic", "tok", [⟨"feat", "A new feature", some true⟩,
        ⟨"build", "ci tweaks", none⟩]⟩) =
    some ⟨"Anthropic", "tok", [⟨"feat", "A new feature", some true⟩,
      ⟨"build", "ci tweaks", none⟩]⟩ := by
  rfl

/-- Claim C7 amended witness: the corrupt-file run crashes uncaught and
the missing-file run is converted to a notice. -/
theorem C7_amended_witness :
    envCorrupt.configFile = some (Except.error "Unexpected token") ∧
    defaultCommand envCorrupt =
      ⟨[Action.print "Executing commit..."],
       some (RunError.configCorrupt "Unexpected token")⟩ ∧
    envNoConfig.configFile = none ∧
    defaultCommand envNoConfig =
      ⟨[Action.print "Executing commit...",
        Action.print "Configuration not found. Please run \"commit --setup\" first."],
       none⟩ := by
  exact ⟨rfl, C7_amended.1 envCorrupt "Unexpected token" rfl, rfl,
         C7_amended.2 envNoConfig rfl⟩

end MoCommit
